import Mathlib

/-!
# go-tools-playGround: cache, locks, retry and conversion helpers

A shallow embedding of the parts of `utils/tools.go` that carry invariants:
the in-memory expiring `Cache`, the Redis based `RedisLock`, the etcd based
`EtcdLock`, the `Retry` helper, `RemovePunctuation` and `Struct2Map`.

Conventions of the embedding.

* A Go `map[string]T` is a partial function from keys to values.
* A Go `interface{}` holding values of some carrier `V` is `Option V`;
  the nil interface is `none`.
* A Go `error` is `Option ε`; the nil error is `none`.
* `time.Time` is the number of nanoseconds since the Unix epoch, an
  unbounded integer; `UnixNano` truncates it to a two's complement `int64`.
* Mutating methods return the new state next to their results.  The
  `sync.RWMutex` calls are no-ops in this sequential reading and are left out.
-/

namespace GoTools

/-! ## Machine integers and time -/

/-- Smallest `int64`. -/
def minInt64 : Int := -(2 ^ 63)

/-- Largest `int64`. -/
def maxInt64 : Int := 2 ^ 63 - 1

/-- Two's complement truncation of an integer to `int64`. -/
def wrapInt64 (x : Int) : Int := (x + 2 ^ 63) % 2 ^ 64 - 2 ^ 63

/-- The integer is representable as an `int64`. -/
def inInt64 (x : Int) : Prop := minInt64 ≤ x ∧ x ≤ maxInt64

instance (x : Int) : Decidable (inInt64 x) := by
  unfold inInt64; infer_instance

/-- Go `Time.Add`: shift an instant by a duration in nanoseconds. -/
def timeAdd (t d : Int) : Int := t + d

/-- Go `Time.UnixNano`: the instant as an `int64` count of nanoseconds. -/
def UnixNano (t : Int) : Int := wrapInt64 t

/-! ## Go maps -/

/-- A Go `map[string]T`. -/
abbrev GoMap (T : Type) := String → Option T

/-- Go `make(map[string]T)`: the empty map. -/
def GoMap.make {T : Type} : GoMap T := fun _ => none

/-- Go `m[key] = val`. -/
def GoMap.assign {T : Type} (m : GoMap T) (key : String) (val : T) : GoMap T :=
  fun k => if k = key then some val else m k

/-- Go `delete(m, key)`; a no-op when the key is absent. -/
def GoMap.delete {T : Type} (m : GoMap T) (key : String) : GoMap T :=
  fun k => if k = key then none else m k

/-! ## Cache (tools.go, lines 523-564) -/

/-- Go `cacheItem`: a stored value with its absolute expiration. -/
structure cacheItem (V : Type) where
  value : Option V
  expiration : Int

/-- Go `Cache`: the `items` map, non-nil as `NewCache` makes it (the embedded
mutex carries no data). -/
structure Cache (V : Type) where
  items : GoMap (cacheItem V)

/-- Go `NewCache`. -/
def NewCache {V : Type} : Cache V := { items := GoMap.make }

/-- Go `Cache.Set`, executed when `time.Now()` reads `now`. -/
def Cache.Set {V : Type} (c : Cache V) (key : String) (value : Option V)
    (duration : Int) (now : Int) : Cache V :=
  let expiration := UnixNano (timeAdd now duration)
  { items := c.items.assign key { value := value, expiration := expiration } }

/-- Go `Cache.Get`, executed when `time.Now()` reads `now`. -/
def Cache.Get {V : Type} (c : Cache V) (key : String) (now : Int) : Option V × Bool :=
  match c.items key with
  | none => (none, false)
  | some item =>
    if UnixNano now > item.expiration then (none, false)
    else (item.value, true)

/-- Go `Cache.Delete`. -/
def Cache.Delete {V : Type} (c : Cache V) (key : String) : Cache V :=
  { items := c.items.delete key }

/-! ## RedisLock (tools.go, lines 465-492)

The Redis server is not part of the repository.  Its state is a map from
keys to string values; server-side expiry of keys is an event of the
environment and not an operation of the lock, so the `ttl` handed to the
server is not stored. -/

/-- The key space of the Redis server. -/
abbrev RedisStore := GoMap String

/-- Modelled from the spec: the key-value store operation
`SET key value NX TTL -> ok|exists` of section 6, which go-redis exposes as
`SetNX(...).Result()`: it writes the value only if the key is absent and
reports whether it wrote; on a healthy connection the error is nil. -/
def RedisStore.SetNX (s : RedisStore) (key value : String) (_ttl : Int) :
    RedisStore × Bool × Option String :=
  match s key with
  | none => (s.assign key value, true, none)
  | some _ => (s, false, none)

/-- Redis command `GET`: the stored value, or the Lua `false` (here `none`)
for an absent key. -/
def RedisStore.get (s : RedisStore) (key : String) : Option String := s key

/-- Redis command `DEL` on one key: the new store and the number of keys removed. -/
def RedisStore.del (s : RedisStore) (key : String) : RedisStore × Int :=
  (s.delete key, if (s key).isSome then 1 else 0)

/-- Go `RedisLock`; the `client` field is the store threaded through the calls. -/
structure RedisLock where
  key : String
  value : String
  ttl : Int

/-- Go `NewRedisLock`. -/
def NewRedisLock (key value : String) (ttl : Int) : RedisLock :=
  { key := key, value := value, ttl := ttl }

/-- Go `RedisLock.Lock`: store, `acquired`, error. -/
def RedisLock.Lock (l : RedisLock) (s : RedisStore) : RedisStore × Bool × Option String :=
  s.SetNX l.key l.value l.ttl

/-- The Lua script of `RedisLock.Unlock`, run atomically by the server with
`KEYS[1] = key1` and `ARGV[1] = argv1`: the new store and the script's reply. -/
def RedisLock.unlockScript (s : RedisStore) (key1 argv1 : String) : RedisStore × Int :=
  if s.get key1 = some argv1 then s.del key1 else (s, 0)

/-- Go `RedisLock.Unlock`: store and error; `Run(...).Err()` is nil for an
integer reply. -/
def RedisLock.Unlock (l : RedisLock) (s : RedisStore) : RedisStore × Option String :=
  ((RedisLock.unlockScript s l.key l.value).1, none)

/-! ## EtcdLock (tools.go, lines 494-517)

The etcd server is not part of the repository.  Its state is a map from keys
to a value and the lease the key is attached to, together with the set of
leases that are alive. Lease `0` is etcd's `NoLease`. -/

/-- A key of the coordination service: its value and the lease it is bound to. -/
structure etcdRecord where
  value : String
  lease : Int
deriving DecidableEq

/-- State of the coordination service. -/
structure EtcdStore where
  kv : GoMap etcdRecord
  leases : Int → Bool

/-- Errors a `Put` can return on a healthy connection. -/
inductive EtcdError where
  | deadlineExceeded
  | leaseNotFound
deriving DecidableEq

/-- Modelled from the spec: the coordination-service operation
"bind key to lease" of section 6, which the etcd client exposes as
`Put(ctx, key, val, WithLease(id))`. The request fails when the context is
already done and when a lease other than `NoLease` is not alive; otherwise it
writes the record, whatever the key held before. -/
def EtcdStore.Put (s : EtcdStore) (ctxDone : Bool) (key val : String) (lease : Int) :
    EtcdStore × Option EtcdError :=
  if ctxDone then (s, some EtcdError.deadlineExceeded)
  else if lease ≠ 0 ∧ s.leases lease = false then (s, some EtcdError.leaseNotFound)
  else ({ s with kv := s.kv.assign key { value := val, lease := lease } }, none)

/-- Go `EtcdLock`; the `client` field is the store threaded through the calls. -/
structure EtcdLock where
  key : String
  ttl : Int

/-- Go `NewEtcdLock`. -/
def NewEtcdLock (key : String) (ttl : Int) : EtcdLock := { key := key, ttl := ttl }

/-- Go `EtcdLock.Lock` under a live parent context: `context.WithTimeout(ctx, l.ttl)`
is done at once when `l.ttl ≤ 0`, and the lease handed to `Put` is
`clientv3.LeaseID(l.ttl)`, the duration itself. -/
def EtcdLock.Lock (l : EtcdLock) (s : EtcdStore) : EtcdStore × Option EtcdError :=
  let ctxDone : Bool := decide (l.ttl ≤ 0)
  s.Put ctxDone l.key "locked" l.ttl

/-- The key is bound to a lease that is alive. -/
def EtcdStore.heldByLiveLease (s : EtcdStore) (key : String) : Bool :=
  match s.kv key with
  | none => false
  | some r => s.leases r.lease

/-! ## Retry (tools.go, lines 431-444)

The callback `fn func() error` is a closure over some state `σ`: one call maps
the state to an error and a new state. The run records, in order, every call of
`fn` and every `time.Sleep`. -/

/-- Observable actions of a `Retry` run. -/
inductive Event where
  | call
  | sleep (d : Int)
deriving DecidableEq

/-- Outcome of a `Retry` run: returned error, final closure state, actions. -/
structure RetryRun (σ ε : Type) where
  err : Option ε
  state : σ
  trace : List Event

/-- The `for i := 0; i < attempts; i++` loop of `Retry`, entered at index `i`
with the current `err`. The first argument counts the iterations that remain,
`attempts - i`; when it is `0` the loop condition is false and `err` is returned. -/
def Retry.loop {σ ε : Type} (attempts sleep : Int) (fn : σ → Option ε × σ) :
    Nat → Int → Option ε → σ → List Event → RetryRun σ ε
  | 0, _, err, s, tr => { err := err, state := s, trace := tr }
  | fuel + 1, i, err, s, tr =>
    if i < attempts then
      let tr1 := if i > 0 then tr ++ [Event.sleep sleep] else tr
      match fn s with
      | (none, s1) => { err := none, state := s1, trace := tr1 ++ [Event.call] }
      | (some e, s1) => Retry.loop attempts sleep fn fuel (i + 1) (some e) s1 (tr1 ++ [Event.call])
    else { err := err, state := s, trace := tr }

/-- Go `Retry`, started with the closure state `s`. -/
def Retry {σ ε : Type} (attempts sleep : Int) (fn : σ → Option ε × σ) (s : σ) :
    RetryRun σ ε :=
  Retry.loop attempts sleep fn attempts.toNat 0 none s []

/-- Closure state after `j` calls of `fn`. -/
def fnState {σ ε : Type} (fn : σ → Option ε × σ) (s : σ) : Nat → σ
  | 0 => s
  | j + 1 => (fn (fnState fn s j)).2

/-- Error returned by call number `j + 1` of `fn`. -/
def fnErr {σ ε : Type} (fn : σ → Option ε × σ) (s : σ) (j : Nat) : Option ε :=
  (fn (fnState fn s j)).1

/-- The spec's schedule for `k` attempts with delay `d`: `k` calls with one
sleep of `d` between consecutive calls, none before the first and none after
the last. -/
def attemptSchedule (d : Int) (k : Nat) : List Event :=
  List.intersperse (Event.sleep d) (List.replicate k Event.call)

/-! ## RemovePunctuation (tools.go, lines 87-94)

A valid UTF-8 Go string is the list of its runes, a Lean `String`; ranging
over a string yields its runes in order, and a pattern that is well-formed
UTF-8 occurs in such a string only at rune boundaries. -/

/-- Left to right scan of `strings.ReplaceAll` for a non-empty pattern `old`.
The counter is the number of runes of the occurrence just replaced that are
still to be dropped; occurrences do not overlap. -/
def ReplaceAll.scan (old new : List Char) : List Char → Nat → List Char
  | [], _ => []
  | _ :: cs, skip + 1 => ReplaceAll.scan old new cs skip
  | c :: cs, 0 =>
    if old.isPrefixOf (c :: cs) then new ++ ReplaceAll.scan old new cs (old.length - 1)
    else c :: ReplaceAll.scan old new cs 0

/-- Go `strings.ReplaceAll(s, old, new)` on rune lists: `s` is returned as it
is when `old == new`; an empty `old` matches before every rune and at the end;
otherwise every non-overlapping occurrence of `old` is replaced from the left. -/
def ReplaceAll (s old new : List Char) : List Char :=
  if old = new then s
  else if old = [] then new ++ s.flatMap (fun c => c :: new)
  else ReplaceAll.scan old new s 0

/-- The `punctuation` literal of `RemovePunctuation`; the apostrophe and the
double quote are written as the escapes `\x27` and `\x22`. -/
def punctuation : String := ",.!?;:_\x27\x22，。！、～·（）"

/-- Go `RemovePunctuation`: for each rune of `punctuation` in order,
`s = strings.ReplaceAll(s, string(char), "")`. -/
def RemovePunctuation (s : String) : String :=
  String.mk (punctuation.data.foldl (fun acc char => ReplaceAll acc [char] []) s.data)

/-! ## Struct2Map (tools.go, lines 131-153)

The argument is a struct value seen through `reflect`: its fields in
declaration order, each with the result of `Tag.Get("bson")` and the dynamic
value `Field(i).Interface()` would return. Floating point values are kept as
their IEEE 754 bit patterns; no arithmetic is done on them. -/

/-- Go's integer types. -/
inductive IntType where
  | int | int8 | int16 | int32 | int64
  | uint | uint8 | uint16 | uint32 | uint64
deriving DecidableEq

/-- Go's floating point types. -/
inductive FloatType where
  | float32 | float64
deriving DecidableEq

/-- A Go value held in an `interface{}`: its dynamic type and its content. -/
inductive GoValue where
  | integer (t : IntType) (v : Int)
  | float (t : FloatType) (bits : Nat)
  | str (s : String)
  | other (typeName : String) (content : String)
deriving DecidableEq

/-- A struct field as `reflect` shows it: name, whether it is exported, the
value of its `bson` tag (empty when there is none) and its value. -/
structure structField where
  name : String
  exported : Bool
  bson : String
  value : GoValue

/-- The dynamic type is one of the types of the first `case` of the switch:
`int, int8, int16, int32, int64, uint, uint8, uint32, uint64, float32, float64`. -/
def GoValue.inNumericCase : GoValue → Bool
  | GoValue.integer IntType.int _ => true
  | GoValue.integer IntType.int8 _ => true
  | GoValue.integer IntType.int16 _ => true
  | GoValue.integer IntType.int32 _ => true
  | GoValue.integer IntType.int64 _ => true
  | GoValue.integer IntType.uint _ => true
  | GoValue.integer IntType.uint8 _ => true
  | GoValue.integer IntType.uint32 _ => true
  | GoValue.integer IntType.uint64 _ => true
  | GoValue.float _ _ => true
  | _ => false

/-- Go `t == c` for an operand `t` of type `interface{}` and an untyped integer
constant `c`: the constant is converted to `interface{}` with its default type
`int`, and two interface values are equal only when their dynamic types are
identical and their values equal. -/
def GoValue.eqIntConst (t : GoValue) (c : Int) : Bool :=
  match t with
  | GoValue.integer IntType.int v => decide (v = c)
  | _ => false

/-- The type switch of `Struct2Map`: `true` when the iteration takes `continue`.
In the first `case`, which lists several types, `t` keeps the type
`interface{}` of the switch operand; in `case string` it is a `string`. -/
def Struct2Map.skips (val : GoValue) : Bool :=
  if val.inNumericCase then val.eqIntConst 0
  else
    match val with
    | GoValue.str t => decide (t = "")
    | _ => false

/-- The loop of `Struct2Map` over the remaining fields with the map built so
far; `none` is the panic of `Interface()` on an unexported field. -/
def Struct2Map.loop : List structField → GoMap GoValue → Option (GoMap GoValue)
  | [], rs => some rs
  | f :: fs, rs =>
    if f.exported = false then none
    else
      let key := f.bson
      let val := f.value
      if Struct2Map.skips val then Struct2Map.loop fs rs
      else Struct2Map.loop fs (rs.assign key val)

/-- Go `Struct2Map` on a struct value given by its fields. -/
def Struct2Map (v : List structField) : Option (GoMap GoValue) :=
  Struct2Map.loop v GoMap.make

/-- Bit pattern of the negative zero of a floating point type. -/
def FloatType.negZeroBits : FloatType → Nat
  | FloatType.float32 => 2 ^ 31
  | FloatType.float64 => 2 ^ 63

/-- The claim's "zero of a numeric type named in the case clause": a zero whose
type is one of `int, int8, int16, int32, int64, uint, uint8, uint32, uint64,
float32, float64`. -/
def GoValue.isListedNumericZero : GoValue → Bool
  | GoValue.integer t v => decide (t ≠ IntType.uint16) && decide (v = 0)
  | GoValue.float t bits => decide (bits = 0) || decide (bits = t.negZeroBits)
  | _ => false

/-! ## Auxiliary facts -/

theorem wrapInt64_of_inInt64 {x : Int} (h : inInt64 x) : wrapInt64 x = x := by
  unfold inInt64 minInt64 maxInt64 at h
  unfold wrapInt64
  have h1 : (x + 2 ^ 63) % 2 ^ 64 = x + 2 ^ 63 :=
    Int.emod_eq_of_lt (by omega) (by omega)
  omega

theorem UnixNano_of_inInt64 {t : Int} (h : inInt64 t) : UnixNano t = t :=
  wrapInt64_of_inInt64 h

theorem GoMap.assign_same {T : Type} (m : GoMap T) (key : String) (val : T) :
    m.assign key val key = some val := by
  simp [GoMap.assign]

theorem GoMap.delete_same {T : Type} (m : GoMap T) (key : String) :
    m.delete key key = none := by
  simp [GoMap.delete]

theorem GoMap.delete_other {T : Type} (m : GoMap T) (key k : String) (h : k ≠ key) :
    m.delete key k = m k := by
  simp [GoMap.delete, h]

theorem intersperse_replicate_succ {α : Type} (sep a : α) (m : Nat) :
    List.intersperse sep (List.replicate (m + 2) a)
      = List.intersperse sep (List.replicate (m + 1) a) ++ [sep, a] := by
  induction m with
  | zero => rfl
  | succ m ih =>
    have hl : List.intersperse sep (List.replicate (m + 1 + 2) a)
        = a :: sep :: List.intersperse sep (List.replicate (m + 2) a) := rfl
    have hr : List.intersperse sep (List.replicate (m + 2) a)
        = a :: sep :: List.intersperse sep (List.replicate (m + 1) a) := rfl
    calc List.intersperse sep (List.replicate (m + 1 + 2) a)
        = a :: sep :: List.intersperse sep (List.replicate (m + 2) a) := hl
      _ = a :: sep :: (List.intersperse sep (List.replicate (m + 1) a) ++ [sep, a]) := by
          rw [ih]
      _ = (a :: sep :: List.intersperse sep (List.replicate (m + 1) a)) ++ [sep, a] := rfl
      _ = List.intersperse sep (List.replicate (m + 1 + 1) a) ++ [sep, a] := by
          rw [← hr]

theorem attemptSchedule_zero (d : Int) : attemptSchedule d 0 = [] := rfl

theorem attemptSchedule_one (d : Int) : attemptSchedule d 1 = [Event.call] := rfl

theorem attemptSchedule_succ_succ (d : Int) (j : Nat) :
    attemptSchedule d (j + 2)
      = attemptSchedule d (j + 1) ++ [Event.sleep d] ++ [Event.call] := by
  unfold attemptSchedule
  rw [intersperse_replicate_succ]
  simp

/-- One more iteration of the loop extends the schedule by one attempt. -/
theorem attemptSchedule_step (d : Int) (j : Nat) :
    (if (j : Int) > 0 then attemptSchedule d j ++ [Event.sleep d] else attemptSchedule d j)
        ++ [Event.call] = attemptSchedule d (j + 1) := by
  cases j with
  | zero => simp [attemptSchedule_zero, attemptSchedule_one]
  | succ j =>
    have hpos : ((j + 1 : Nat) : Int) > 0 := by omega
    rw [if_pos hpos, attemptSchedule_succ_succ]

theorem attemptSchedule_count_call (d : Int) (k : Nat) :
    (attemptSchedule d k).count Event.call = k := by
  induction k with
  | zero => simp [attemptSchedule_zero]
  | succ k ih =>
    cases k with
    | zero => simp [attemptSchedule_one]
    | succ k =>
      rw [attemptSchedule_succ_succ]
      simp [List.count_append, ih]

theorem attemptSchedule_count_sleep (d : Int) (k : Nat) :
    (attemptSchedule d k).count (Event.sleep d) = k - 1 := by
  induction k with
  | zero => simp [attemptSchedule_zero]
  | succ k ih =>
    cases k with
    | zero => simp [attemptSchedule_one]
    | succ k =>
      rw [attemptSchedule_succ_succ]
      simp [List.count_append, ih]

theorem fn_eq_fnErr_fnState {σ ε : Type} (fn : σ → Option ε × σ) (s : σ) (j : Nat) :
    fn (fnState fn s j) = (fnErr fn s j, fnState fn s (j + 1)) := rfl

/-- The loop entered at index `j` with `n - j` iterations left, when every
remaining call fails: it runs to the end and returns the last error. -/
theorem Retry.loop_all_fail {σ ε : Type} (n : Nat) (d : Int) (fn : σ → Option ε × σ)
    (s : σ) (hfail : ∀ m : Nat, m < n → fnErr fn s m ≠ none) :
    ∀ (f j : Nat) (err : Option ε), j + f = n →
      Retry.loop (n : Int) d fn f (j : Int) err (fnState fn s j) (attemptSchedule d j)
        = { err := if f = 0 then err else fnErr fn s (n - 1),
            state := fnState fn s n,
            trace := attemptSchedule d n } := by
  intro f
  induction f with
  | zero =>
    intro j err hj
    have hjn : j = n := by omega
    subst hjn
    simp [Retry.loop]
  | succ f ih =>
    intro j err hj
    have hlt : (j : Int) < (n : Int) := by omega
    obtain ⟨e, he⟩ := Option.ne_none_iff_exists'.mp (hfail j (by omega))
    have hstep := ih (j + 1) (some e) (by omega)
    rw [Retry.loop, if_pos hlt, fn_eq_fnErr_fnState fn s j, he]
    simp only []
    rw [attemptSchedule_step]
    rw [Nat.cast_succ] at hstep
    rw [hstep]
    by_cases hf : f = 0
    · have hjn : n - 1 = j := by omega
      simp [hf, hjn, he]
    · simp [hf]

/-- The loop entered at index `j` when the calls `j + 1` to `k` fail and call
`k + 1` succeeds: it stops right after that call and returns nil. -/
theorem Retry.loop_success {σ ε : Type} (n k : Nat) (d : Int) (fn : σ → Option ε × σ)
    (s : σ) (hk : k < n) (hfail : ∀ m : Nat, m < k → fnErr fn s m ≠ none)
    (hok : fnErr fn s k = none) :
    ∀ (f j : Nat) (err : Option ε), j + f = n → j ≤ k →
      Retry.loop (n : Int) d fn f (j : Int) err (fnState fn s j) (attemptSchedule d j)
        = { err := none,
            state := fnState fn s (k + 1),
            trace := attemptSchedule d (k + 1) } := by
  intro f
  induction f with
  | zero =>
    intro j err hj hjk
    omega
  | succ f ih =>
    intro j err hj hjk
    have hlt : (j : Int) < (n : Int) := by omega
    rw [Retry.loop, if_pos hlt, fn_eq_fnErr_fnState fn s j]
    by_cases hjk2 : j = k
    · subst hjk2
      rw [hok]
      simp only []
      rw [attemptSchedule_step]
    · obtain ⟨e, he⟩ := Option.ne_none_iff_exists'.mp (hfail j (by omega))
      have hstep := ih (j + 1) (some e) (by omega) (by omega)
      rw [he]
      simp only []
      rw [attemptSchedule_step]
      rw [Nat.cast_succ] at hstep
      exact hstep

/-- The iteration budget of `Retry` is never the reason the loop stops: any
two budgets of at least `attempts - i` give the same run. -/
theorem Retry.loop_budget_irrelevant {σ ε : Type} (attempts d : Int)
    (fn : σ → Option ε × σ) :
    ∀ (f g : Nat) (i : Int) (err : Option ε) (s : σ) (tr : List Event),
      (attempts - i).toNat ≤ f → (attempts - i).toNat ≤ g →
      Retry.loop attempts d fn f i err s tr = Retry.loop attempts d fn g i err s tr := by
  intro f
  induction f with
  | zero =>
    intro g i err s tr hf _
    have hge : ¬ i < attempts := by omega
    cases g with
    | zero => rfl
    | succ g => rw [Retry.loop, Retry.loop, if_neg hge]
  | succ f ih =>
    intro g i err s tr hf hg
    cases g with
    | zero =>
      have hge : ¬ i < attempts := by omega
      rw [Retry.loop, Retry.loop, if_neg hge]
    | succ g =>
      rw [Retry.loop, Retry.loop]
      by_cases hlt : i < attempts
      · rw [if_pos hlt, if_pos hlt]
        rcases hfn : fn s with ⟨e, s1⟩
        cases e with
        | none => rfl
        | some e =>
          simp only []
          exact ih g (i + 1) (some e) s1 _ (by omega) (by omega)
      · rw [if_neg hlt, if_neg hlt]

theorem ReplaceAll.scan_single (c : Char) (s : List Char) :
    ReplaceAll.scan [c] [] s 0 = s.filter (fun x => x != c) := by
  induction s with
  | nil => rfl
  | cons x xs ih =>
    by_cases hx : x = c
    · subst hx
      simp [ReplaceAll.scan, List.isPrefixOf, ih]
    · have hcx : ¬ c = x := fun h => hx h.symm
      simp [ReplaceAll.scan, List.isPrefixOf, ih, hx, hcx]

/-- Deleting a one rune pattern is filtering that rune out. -/
theorem ReplaceAll_single (c : Char) (s : List Char) :
    ReplaceAll s [c] [] = s.filter (fun x => x != c) := by
  simp [ReplaceAll, ReplaceAll.scan_single]

/-- Deleting the runes of `cs` one after the other is filtering all of them out. -/
theorem foldl_ReplaceAll_single (cs : List Char) :
    ∀ s : List Char,
      cs.foldl (fun acc char => ReplaceAll acc [char] []) s
        = s.filter (fun x => !cs.contains x) := by
  induction cs with
  | nil => intro s; simp
  | cons c cs ih =>
    intro s
    rw [List.foldl_cons, ih, ReplaceAll_single, List.filter_filter]
    congr 1
    funext x
    by_cases hx : x = c
    · simp [hx]
    · simp [hx]

theorem RemovePunctuation_data (s : String) :
    (RemovePunctuation s).data = s.data.filter (fun x => !punctuation.data.contains x) := by
  unfold RemovePunctuation
  rw [foldl_ReplaceAll_single]

theorem GoMap.assign_other {T : Type} (m : GoMap T) (key k : String) (val : T)
    (h : k ≠ key) : m.assign key val k = m k := by
  simp [GoMap.assign, h]

/-- The switch takes `continue` exactly for the `int` zero and the empty string. -/
theorem Struct2Map.skips_iff (val : GoValue) :
    Struct2Map.skips val = true ↔
      (val = GoValue.integer IntType.int 0 ∨ val = GoValue.str "") := by
  cases val with
  | integer t v =>
    cases t <;> simp [Struct2Map.skips, GoValue.inNumericCase, GoValue.eqIntConst]
  | float t bits => simp [Struct2Map.skips, GoValue.inNumericCase, GoValue.eqIntConst]
  | str t => simp [Struct2Map.skips, GoValue.inNumericCase]
  | other n c => simp [Struct2Map.skips, GoValue.inNumericCase]

/-- The loop on exported fields with pairwise distinct keys: it returns a map
that agrees with the initial one outside the fields' keys and holds, under the
key of each field, the field's value unless the switch skipped it. -/
theorem Struct2Map.loop_spec :
    ∀ (fs : List structField) (rs : GoMap GoValue),
      (∀ f ∈ fs, f.exported = true) → (fs.map (fun f => f.bson)).Nodup →
      ∃ m, Struct2Map.loop fs rs = some m ∧
        (∀ k : String, k ∉ fs.map (fun f => f.bson) → m k = rs k) ∧
        (∀ f ∈ fs, m f.bson = if Struct2Map.skips f.value then rs f.bson else some f.value) := by
  intro fs
  induction fs with
  | nil =>
    intro rs _ _
    exact ⟨rs, rfl, fun _ _ => rfl, fun f hf => absurd hf (List.not_mem_nil f)⟩
  | cons g gs ih =>
    intro rs hexp hkeys
    have hg : g.exported = true := hexp g (List.mem_cons_self g gs)
    have hgs : ∀ f ∈ gs, f.exported = true := fun f hf => hexp f (List.mem_cons_of_mem g hf)
    rw [List.map_cons, List.nodup_cons] at hkeys
    obtain ⟨hgkey, hnodup⟩ := hkeys
    have hne : ∀ f ∈ gs, f.bson ≠ g.bson := by
      intro f hf heq
      exact hgkey (heq ▸ List.mem_map_of_mem (fun f => f.bson) hf)
    by_cases hskip : Struct2Map.skips g.value = true
    · obtain ⟨m, hm, hframe, hfields⟩ := ih rs hgs hnodup
      refine ⟨m, ?_, ?_, ?_⟩
      · simp [Struct2Map.loop, hg, hskip, hm]
      · intro k hk
        rw [List.map_cons, List.mem_cons, not_or] at hk
        exact hframe k hk.2
      · intro f hf
        rcases List.mem_cons.mp hf with rfl | hf
        · rw [if_pos hskip]
          exact hframe _ hgkey
        · exact hfields f hf
    · obtain ⟨m, hm, hframe, hfields⟩ := ih (rs.assign g.bson g.value) hgs hnodup
      refine ⟨m, ?_, ?_, ?_⟩
      · simp [Struct2Map.loop, hg, hskip, hm]
      · intro k hk
        rw [List.map_cons, List.mem_cons, not_or] at hk
        rw [hframe k hk.2, GoMap.assign_other _ _ _ _ hk.1]
      · intro f hf
        rcases List.mem_cons.mp hf with rfl | hf
        · rw [if_neg hskip, hframe _ hgkey, GoMap.assign_same]
        · rw [hfields f hf, GoMap.assign_other _ _ _ _ (hne f hf)]

/-! ## Cache: claims C1 to C4 -/

/-- C1: after `Set(k, v, ttl)` at clock reading `t0` with `ttl > 0` and
`t0 + ttl` representable as `int64` nanoseconds, a `Get(k)` at any clock
reading `t1` with `t0 ≤ t1 ≤ t0 + ttl` returns `(v, true)`, whatever the
cache held for `k` before; the entry of `k` is replaced by the new one. -/
theorem Cache.set_then_get {V : Type} (c : Cache V) (k : String) (v : Option V)
    (ttl t0 t1 : Int) (hclock : inInt64 t0) (httl : 0 < ttl)
    (hfit : t0 + ttl ≤ maxInt64) (hle : t0 ≤ t1) (hlive : t1 ≤ t0 + ttl) :
    (c.Set k v ttl t0).Get k t1 = (v, true) ∧
    (c.Set k v ttl t0).items k = some { value := v, expiration := t0 + ttl } := by
  have hexp : inInt64 (t0 + ttl) := ⟨by have := hclock.1; omega, hfit⟩
  have hnow : inInt64 t1 := ⟨by have := hclock.1; omega, by omega⟩
  have hitem : (c.Set k v ttl t0).items k
      = some { value := v, expiration := t0 + ttl } := by
    simp [Cache.Set, GoMap.assign_same, timeAdd, UnixNano_of_inInt64 hexp]
  refine ⟨?_, hitem⟩
  unfold Cache.Get
  rw [hitem, UnixNano_of_inInt64 hnow]
  simp only []
  rw [if_neg (by omega)]

/-- Witness of C1: the usage of `main.go`, a five second entry read back at once. -/
theorem Cache.set_then_get_witness :
    ((NewCache : Cache String).Set "cachekey1" (some "cachevalue1") 5000000000 1000).Get
        "cachekey1" 1000 = (some "cachevalue1", true) ∧
    ((NewCache : Cache String).Set "cachekey1" (some "cachevalue1") 5000000000 1000).items
        "cachekey1" = some { value := some "cachevalue1", expiration := 1000 + 5000000000 } :=
  Cache.set_then_get NewCache "cachekey1" (some "cachevalue1") 5000000000 1000 1000
    (by decide) (by decide) (by decide) (by decide) (by decide)

/-- C2: at a representable clock reading `now`, `Get(k)` reports
`found = false` exactly when `k` has no entry or `now` is greater than the
entry's expiration; otherwise it returns the entry's value with `true`; so a
returned entry never has its expiration strictly before `now`. -/
theorem Cache.get_spec {V : Type} (c : Cache V) (k : String) (now : Int)
    (hclock : inInt64 now) :
    ((c.Get k now).2 = false ↔
      (c.items k = none ∨ ∃ e, c.items k = some e ∧ now > e.expiration)) ∧
    (∀ e, c.items k = some e → ¬ now > e.expiration → c.Get k now = (e.value, true)) ∧
    (∀ e, c.items k = some e → (c.Get k now).2 = true → now ≤ e.expiration) := by
  unfold Cache.Get
  rw [UnixNano_of_inInt64 hclock]
  cases hk : c.items k with
  | none => simp
  | some item =>
    by_cases hgt : now > item.expiration
    · simp [hgt]
    · simp [hgt]
      omega

/-- Witness of C2 on a cache holding one entry that expires at 10, read at 11. -/
theorem Cache.get_spec_witness :
    inInt64 11 ∧
    ((((NewCache : Cache Nat).Set "a" (some 7) 10 0).Get "a" 11).2 = false ↔
      (((NewCache : Cache Nat).Set "a" (some 7) 10 0).items "a" = none ∨
        ∃ e, ((NewCache : Cache Nat).Set "a" (some 7) 10 0).items "a" = some e ∧
          11 > e.expiration)) :=
  ⟨by decide, (Cache.get_spec ((NewCache : Cache Nat).Set "a" (some 7) 10 0) "a" 11
    (by decide)).1⟩

/-- C3: after `Set(k, v, 0)` at clock reading `t0`, a `Get(k)` at any later
clock reading `t1 > t0` returns `(nil, false)`. -/
theorem Cache.set_zero_then_get {V : Type} (c : Cache V) (k : String) (v : Option V)
    (t0 t1 : Int) (h0 : inInt64 t0) (h1 : inInt64 t1) (hlater : t0 < t1) :
    (c.Set k v 0 t0).Get k t1 = (none, false) := by
  have hitem : (c.Set k v 0 t0).items k = some { value := v, expiration := t0 } := by
    simp [Cache.Set, GoMap.assign_same, timeAdd, UnixNano_of_inInt64 h0]
  unfold Cache.Get
  rw [hitem, UnixNano_of_inInt64 h1]
  simp only []
  rw [if_pos (by omega)]

/-- Witness of C3: a zero ttl entry written at 1000 and read one nanosecond later. -/
theorem Cache.set_zero_then_get_witness :
    ((NewCache : Cache String).Set "k" (some "v") 0 1000).Get "k" 1001 = (none, false) :=
  Cache.set_zero_then_get NewCache "k" (some "v") 1000 1001
    (by decide) (by decide) (by decide)

/-- C4: `Delete(k)` is total; afterwards `Get(k)` returns `(nil, false)` at
every clock reading, and the entry of every other key is unchanged. -/
theorem Cache.delete_spec {V : Type} (c : Cache V) (k : String) :
    (∀ now : Int, (c.Delete k).Get k now = (none, false)) ∧
    (∀ k2 : String, k2 ≠ k → (c.Delete k).items k2 = c.items k2) := by
  constructor
  · intro now
    simp [Cache.Get, Cache.Delete, GoMap.delete_same]
  · intro k2 hne
    simp [Cache.Delete, GoMap.delete_other _ _ _ hne]

/-! ## RedisLock: claims C5 and C6 -/

/-- C5: `Unlock` removes the lock key exactly when the value stored under it
equals the caller's token (the key was present and is absent afterwards iff the
tokens match, and then no other key is touched); when the stored value differs
from the caller's token, or the key is absent, the store is returned unchanged,
so another holder's record survives. The call reports no error. -/
theorem RedisLock.unlock_compare_and_delete (l : RedisLock) (s : RedisStore) :
    (((s l.key).isSome = true ∧ (l.Unlock s).1 l.key = none) ↔ s l.key = some l.value) ∧
    (s l.key = some l.value → (l.Unlock s).1 = s.delete l.key) ∧
    (s l.key ≠ some l.value → (l.Unlock s).1 = s) ∧
    (∀ other : String, other ≠ l.value → s l.key = some other →
      (l.Unlock s).1 l.key = some other) ∧
    (l.Unlock s).2 = none := by
  by_cases h : s l.key = some l.value
  · have hu : (l.Unlock s).1 = s.delete l.key := by
      simp [RedisLock.Unlock, RedisLock.unlockScript, RedisStore.get, RedisStore.del, h]
    refine ⟨?_, fun _ => hu, fun hne => absurd h hne, ?_, rfl⟩
    · rw [hu, GoMap.delete_same]
      simp [h]
    · intro other hne hs
      rw [h] at hs
      exact absurd (Option.some.inj hs).symm hne
  · have hu : (l.Unlock s).1 = s := by
      simp [RedisLock.Unlock, RedisLock.unlockScript, RedisStore.get, h]
    refine ⟨?_, fun hs => absurd hs h, fun _ => hu, ?_, rfl⟩
    · rw [hu]
      constructor
      · rintro ⟨hsome, hnone⟩
        rw [hnone] at hsome
        simp at hsome
      · intro hs
        exact absurd hs h
    · intro other _ hs
      rw [hu, hs]

/-- C6: `Lock` reports `acquired = true` exactly when the lock key was absent,
and then the store holds the caller's token under the key and nothing else
changed; when the key was present it returns `(false, nil)` and the store
unchanged. Hence, from a store where the key is absent, of two `Lock` calls on
the same key in sequence the first acquires and the second does not. -/
theorem RedisLock.lock_set_if_absent (l : RedisLock) (s : RedisStore) :
    ((l.Lock s).2.1 = true ↔ s l.key = none) ∧
    (s l.key = none → (l.Lock s).1 = s.assign l.key l.value ∧ (l.Lock s).2.2 = none) ∧
    (s l.key ≠ none → l.Lock s = (s, false, none)) ∧
    (∀ l2 : RedisLock, l2.key = l.key → s l.key = none →
      (l.Lock s).2.1 = true ∧ (l2.Lock (l.Lock s).1).2.1 = false ∧
      (l2.Lock (l.Lock s).1).1 = (l.Lock s).1) := by
  have habsent : s l.key = none → l.Lock s = (s.assign l.key l.value, true, none) := by
    intro h
    simp [RedisLock.Lock, RedisStore.SetNX, h]
  have hpresent : s l.key ≠ none → l.Lock s = (s, false, none) := by
    intro h
    obtain ⟨w, hw⟩ := Option.ne_none_iff_exists'.mp h
    simp [RedisLock.Lock, RedisStore.SetNX, hw]
  refine ⟨?_, ?_, hpresent, ?_⟩
  · by_cases h : s l.key = none
    · simp [habsent h, h]
    · simp [hpresent h, h]
  · intro h
    simp [habsent h]
  · intro l2 hkey h
    have h2 : l2.Lock (s.assign l.key l.value) = (s.assign l.key l.value, false, none) := by
      simp [RedisLock.Lock, RedisStore.SetNX, hkey, GoMap.assign_same]
    rw [habsent h]
    simp [h2]

/-! ## EtcdLock: claim C7 -/

/-- C7, evaluated on the code: with the lock key `mylock` bound by another owner
to the live lease `77`, and a live lease whose id equals the ten second
duration, `Lock` returns nil and replaces the owner's record. -/
theorem EtcdLock.lock_overwrites_held_key :
    let s : EtcdStore :=
      { kv := GoMap.assign GoMap.make "mylock" { value := "owner-A", lease := 77 },
        leases := fun id => decide (id = 77 ∨ id = 10000000000) }
    let l := NewEtcdLock "mylock" 10000000000
    s.heldByLiveLease "mylock" = true ∧
    (l.Lock s).2 = none ∧
    (l.Lock s).1.kv "mylock" = some { value := "locked", lease := 10000000000 } ∧
    (l.Lock s).1.kv "mylock" ≠ s.kv "mylock" := by
  simp [EtcdStore.heldByLiveLease, EtcdLock.Lock, EtcdStore.Put, NewEtcdLock,
    GoMap.assign, GoMap.make]

/-! ## Retry: claims C8 and C9 -/

/-- C8: for `attempts ≥ 1` and a callback whose calls all fail, `Retry` calls
`fn` exactly `attempts` times with one sleep of `d` between consecutive calls
(so `attempts - 1` sleeps, none before the first call and none after the last)
and returns the error of the last call. -/
theorem Retry.all_attempts_fail {σ ε : Type} (attempts d : Int) (fn : σ → Option ε × σ)
    (s : σ) (hn : 1 ≤ attempts)
    (hfail : ∀ j : Nat, (j : Int) < attempts → fnErr fn s j ≠ none) :
    (Retry attempts d fn s).trace = attemptSchedule d attempts.toNat ∧
    (Retry attempts d fn s).trace.count Event.call = attempts.toNat ∧
    (Retry attempts d fn s).trace.count (Event.sleep d) = attempts.toNat - 1 ∧
    (Retry attempts d fn s).err = fnErr fn s (attempts.toNat - 1) ∧
    (Retry attempts d fn s).err ≠ none ∧
    (Retry attempts d fn s).state = fnState fn s attempts.toNat := by
  obtain ⟨n, rfl⟩ := Int.eq_ofNat_of_zero_le (show (0 : Int) ≤ attempts by omega)
  have hpos : 1 ≤ n := by omega
  have hrun : Retry (n : Int) d fn s
      = { err := fnErr fn s (n - 1), state := fnState fn s n,
          trace := attemptSchedule d n } := by
    have h := Retry.loop_all_fail n d fn s (fun m hm => hfail m (by omega)) n 0 none (by omega)
    rw [if_neg (by omega)] at h
    unfold Retry
    rw [Int.toNat_ofNat]
    exact h
  have htn : (n : Int).toNat = n := Int.toNat_ofNat n
  rw [hrun, htn]
  exact ⟨rfl, attemptSchedule_count_call d n, attemptSchedule_count_sleep d n, rfl,
    hfail (n - 1) (by omega), rfl⟩

/-- Witness of C8: the usage of `main.go`, three attempts one second apart of a
callback that always fails. -/
theorem Retry.all_attempts_fail_witness :
    (Retry 3 1000000000 (fun _ : Unit => (some "some error", ())) ()).trace
      = [Event.call, Event.sleep 1000000000, Event.call, Event.sleep 1000000000, Event.call] ∧
    (Retry 3 1000000000 (fun _ : Unit => (some "some error", ())) ()).err
      = some "some error" := by
  have h := Retry.all_attempts_fail 3 1000000000 (fun _ : Unit => (some "some error", ())) ()
    (by decide) (fun j _ => by simp [fnErr])
  exact ⟨h.1, h.2.2.2.1⟩

/-- C9: when the first `k - 1` calls of the callback fail and call `k` returns
nil, with `1 ≤ k ≤ attempts`, `Retry` returns nil after exactly `k` calls of
`fn` and `k - 1` sleeps of `d`, one between consecutive calls; `fn` is not
called again after its first success. -/
theorem Retry.succeeds_at_attempt {σ ε : Type} (attempts d : Int) (fn : σ → Option ε × σ)
    (s : σ) (k : Nat) (hk : 1 ≤ k) (hkn : (k : Int) ≤ attempts)
    (hfail : ∀ j : Nat, j + 1 < k → fnErr fn s j ≠ none)
    (hok : fnErr fn s (k - 1) = none) :
    (Retry attempts d fn s).err = none ∧
    (Retry attempts d fn s).trace = attemptSchedule d k ∧
    (Retry attempts d fn s).trace.count Event.call = k ∧
    (Retry attempts d fn s).trace.count (Event.sleep d) = k - 1 ∧
    (Retry attempts d fn s).state = fnState fn s k := by
  obtain ⟨n, rfl⟩ := Int.eq_ofNat_of_zero_le (show (0 : Int) ≤ attempts by omega)
  have hrun : Retry (n : Int) d fn s
      = { err := none, state := fnState fn s k, trace := attemptSchedule d k } := by
    have h := Retry.loop_success n (k - 1) d fn s (by omega)
      (fun m hm => hfail m (by omega)) hok n 0 none (by omega) (by omega)
    have hk1 : k - 1 + 1 = k := by omega
    rw [hk1] at h
    unfold Retry
    rw [Int.toNat_ofNat]
    exact h
  rw [hrun]
  exact ⟨rfl, rfl, attemptSchedule_count_call d k, attemptSchedule_count_sleep d k, rfl⟩

/-- Witness of C9: three attempts of a callback that fails twice and then
succeeds; the closure state counts the calls made. -/
theorem Retry.succeeds_at_attempt_witness :
    (Retry 3 1000000000
        (fun c : Nat => (if c < 2 then some "transient" else none, c + 1)) 0).err = none ∧
    (Retry 3 1000000000
        (fun c : Nat => (if c < 2 then some "transient" else none, c + 1)) 0).trace
      = [Event.call, Event.sleep 1000000000, Event.call, Event.sleep 1000000000, Event.call] ∧
    (Retry 3 1000000000
        (fun c : Nat => (if c < 2 then some "transient" else none, c + 1)) 0).state = 3 := by
  have h := Retry.succeeds_at_attempt 3 1000000000
    (fun c : Nat => (if c < 2 then some "transient" else none, c + 1)) 0 3
    (by decide) (by decide)
    (fun j hj => by
      have hj2 : j = 0 ∨ j = 1 := by omega
      rcases hj2 with rfl | rfl <;> simp [fnErr, fnState])
    (by simp [fnErr, fnState])
  exact ⟨h.1, h.2.1, h.2.2.2.2⟩

/-! ## RemovePunctuation: claim C11 -/

/-- C11: `RemovePunctuation(s)` is `s` with every rune of the punctuation list
deleted and the other runes kept in their order; the result holds none of the
listed runes, the function is idempotent, and `fsfwfefafadf_808?!;.` becomes
`fsfwfefafadf808`. -/
theorem RemovePunctuation_spec (s : String) :
    (RemovePunctuation s).data = s.data.filter (fun x => !punctuation.data.contains x) ∧
    (∀ c : Char, c ∈ punctuation.data → c ∉ (RemovePunctuation s).data) ∧
    RemovePunctuation (RemovePunctuation s) = RemovePunctuation s ∧
    punctuation.data.length = 17 ∧
    RemovePunctuation "fsfwfefafadf_808?!;." = "fsfwfefafadf808" := by
  refine ⟨RemovePunctuation_data s, ?_, ?_, by decide, ?_⟩
  · intro c hc hmem
    rw [RemovePunctuation_data, List.mem_filter] at hmem
    have hcontains : punctuation.data.contains c = true := by
      simpa using hc
    rw [hcontains] at hmem
    exact absurd hmem.2 (by decide)
  · have hdata : (RemovePunctuation (RemovePunctuation s)).data
        = (RemovePunctuation s).data := by
      rw [RemovePunctuation_data (RemovePunctuation s), RemovePunctuation_data s,
        List.filter_filter]
      congr 1
      funext x
      cases punctuation.data.contains x <;> rfl
    exact String.ext hdata
  · have hdata : (RemovePunctuation "fsfwfefafadf_808?!;.").data = "fsfwfefafadf808".data := by
      rw [RemovePunctuation_data]
      decide
    exact String.ext hdata

/-! ## Retry: claim C12 -/

/-- C12: for `attempts ≤ 0`, `Retry` returns nil without calling `fn` and
without sleeping, whatever `fn` is; the closure state is untouched. -/
theorem Retry.no_attempts {σ ε : Type} (attempts d : Int) (fn : σ → Option ε × σ)
    (s : σ) (hn : attempts ≤ 0) :
    (Retry attempts d fn s).err = none ∧
    (Retry attempts d fn s).trace = [] ∧
    (Retry attempts d fn s).state = s := by
  have hz : attempts.toNat = 0 := by omega
  have hrun : Retry attempts d fn s = { err := none, state := s, trace := [] } := by
    unfold Retry
    rw [hz]
    rfl
  rw [hrun]
  exact ⟨rfl, rfl, rfl⟩

/-- Witness of C12: minus one attempts of a callback that would always fail. -/
theorem Retry.no_attempts_witness :
    (-1 : Int) ≤ 0 ∧
    (Retry (-1) 1000000000 (fun _ : Unit => (some "some error", ())) ()).err = none ∧
    (Retry (-1) 1000000000 (fun _ : Unit => (some "some error", ())) ()).trace = [] ∧
    (Retry (-1) 1000000000 (fun _ : Unit => (some "some error", ())) ()).state = () :=
  ⟨by decide, Retry.no_attempts (-1) 1000000000 (fun _ : Unit => (some "some error", ())) ()
    (by decide)⟩

/-! ## Struct2Map: claim C13 -/

/-- C13 as stated fails: in a struct with exported fields `Views int` (zero) and
`Alias string` sharing the key `views`, and `DeletedAt int64` (zero) under
`deleted_at`, the key of the zero `int` field is present, holding the other
field's value, and the zero `int64` field is kept under its key. -/
theorem Struct2Map.zero_fields_keys_present :
    let views : structField :=
      { name := "Views", exported := true, bson := "views",
        value := GoValue.integer IntType.int 0 }
    let shadow : structField :=
      { name := "Alias", exported := true, bson := "views", value := GoValue.str "hi" }
    let deletedAt : structField :=
      { name := "DeletedAt", exported := true, bson := "deleted_at",
        value := GoValue.integer IntType.int64 0 }
    views.value.isListedNumericZero = true ∧
    (Struct2Map [views, shadow, deletedAt]).map (fun m => m views.bson)
      = some (some (GoValue.str "hi")) ∧
    deletedAt.value.isListedNumericZero = true ∧
    (Struct2Map [views, shadow, deletedAt]).map (fun m => m deletedAt.bson)
      = some (some (GoValue.integer IntType.int64 0)) := by
  simp [Struct2Map, Struct2Map.loop, Struct2Map.skips, GoValue.inNumericCase,
    GoValue.eqIntConst, GoValue.isListedNumericZero, GoMap.assign, GoMap.make]

/-- C13 amended: for a struct whose fields are all exported and carry pairwise
distinct `bson` keys, `Struct2Map` returns a map in which the key of a field
holding the `int` zero or the empty string is absent, and every field that holds
neither a zero of a numeric type of the case clause nor the empty string appears
under its key with its value. -/
theorem Struct2Map.distinct_keys_spec (v : List structField)
    (hexp : ∀ f ∈ v, f.exported = true)
    (hkeys : (v.map (fun f => f.bson)).Nodup) :
    ∃ m, Struct2Map v = some m ∧
      ∀ f ∈ v,
        ((f.value = GoValue.integer IntType.int 0 ∨ f.value = GoValue.str "") →
          m f.bson = none) ∧
        ((f.value.isListedNumericZero = false ∧ f.value ≠ GoValue.str "") →
          m f.bson = some f.value) := by
  obtain ⟨m, hm, hframe, hfields⟩ := Struct2Map.loop_spec v GoMap.make hexp hkeys
  refine ⟨m, hm, fun f hf => ⟨?_, ?_⟩⟩
  · intro hzero
    rw [hfields f hf, if_pos ((Struct2Map.skips_iff f.value).mpr hzero)]
    rfl
  · rintro ⟨hnum, hstr⟩
    have hkeep : ¬ Struct2Map.skips f.value = true := by
      intro hskip
      rcases (Struct2Map.skips_iff f.value).mp hskip with h | h
      · rw [h] at hnum
        exact absurd hnum (by decide)
      · exact hstr h
    rw [hfields f hf, if_neg hkeep]

/-- Witness of the amended C13: an article with an empty title, zero views and
a set update time. -/
theorem Struct2Map.distinct_keys_spec_witness :
    ∃ m, Struct2Map
        [{ name := "Id", exported := true, bson := "_id,omitempty", value := GoValue.str "a1" },
         { name := "Title", exported := true, bson := "title", value := GoValue.str "" },
         { name := "Views", exported := true, bson := "views",
           value := GoValue.integer IntType.int 0 },
         { name := "UpdatedAt", exported := true, bson := "updated_at",
           value := GoValue.integer IntType.int64 1700000000 }] = some m ∧
      m "title" = none ∧ m "views" = none ∧
      m "_id,omitempty" = some (GoValue.str "a1") ∧
      m "updated_at" = some (GoValue.integer IntType.int64 1700000000) := by
  obtain ⟨m, hm, hall⟩ := Struct2Map.distinct_keys_spec
    [{ name := "Id", exported := true, bson := "_id,omitempty", value := GoValue.str "a1" },
     { name := "Title", exported := true, bson := "title", value := GoValue.str "" },
     { name := "Views", exported := true, bson := "views",
       value := GoValue.integer IntType.int 0 },
     { name := "UpdatedAt", exported := true, bson := "updated_at",
       value := GoValue.integer IntType.int64 1700000000 }]
    (by simp) (by decide)
  refine ⟨m, hm, ?_, ?_, ?_, ?_⟩
  · exact (hall (⟨"Title", true, "title", GoValue.str ""⟩ : structField) (by simp)).1
      (Or.inr rfl)
  · exact (hall (⟨"Views", true, "views", GoValue.integer IntType.int 0⟩ : structField)
      (by simp)).1 (Or.inl rfl)
  · exact (hall (⟨"Id", true, "_id,omitempty", GoValue.str "a1"⟩ : structField)
      (by simp)).2 (by decide)
  · exact (hall (⟨"UpdatedAt", true, "updated_at",
      GoValue.integer IntType.int64 1700000000⟩ : structField) (by simp)).2 (by decide)

end GoTools
